import Mathlib

/- Verification development for the myfs in-memory filesystem
   (src/implementation.c, src/implementation.h).

   The C code is shallowly embedded at three levels:
   1. a byte-level model of the memory region, for mount_filesystem;
   2. a block-list model of the region allocator (add_to_free_memory,
      get_memory_block, malloc_impl, free_impl);
   3. an offset-indexed record model of the inode tree and file chunks, for
      resolve_path, get_node, getattr, truncate, add_data and remove_data.

   All integers are modelled as Nat. The C programs arithmetic is on size_t
   values that stay far below 2^64 on any region the code is specified for
   (region offsets never exceed the region size), so no wrap-around is
   modelled except where the source itself checks for it
   (offset_to_pointer). -/

namespace Myfs

/-! ## Byte-level model of the memory region

    A region is a total map from byte offsets to byte values. Multi-byte
    stores and loads are little-endian, matching the x86-64 layout assumed
    by the source. Struct layouts (natural alignment, 64-bit, from
    implementation.h):

      superblock_t : magic_number u32 at 0 (4 bytes padding follow),
                     free_memory u64 at 8, root_directory u64 at 16,
                     size u64 at 24; sizeof = 32.
      inode_t      : name[256] at 0, time[0] tv_sec at 256 tv_nsec at 264,
                     time[1] tv_sec at 272 tv_nsec at 280, type u8 at 288
                     (7 bytes padding), value union (two u64 words at 296
                     and 304); sizeof = 312.
      data_block_t : remaining u64 at 0, next u64 at 8; sizeof = 16. -/

/-- MAGIC_NUMBER from implementation.h. -/
def MAGIC_NUMBER : Nat := 0xADDBEEF

/-- Store one byte at offset o. -/
def upd (r : Nat → Nat) (o b : Nat) : Nat → Nat :=
  fun a => if a = o then b else r a

/-- The memset(p, 0, n) of the C library, at region offset o. -/
def memsetZero (r : Nat → Nat) (o n : Nat) : Nat → Nat :=
  fun a => if o ≤ a ∧ a < o + n then 0 else r a

/-- Little-endian store of the low 8*n bits of v at offset o. -/
def writeLE (r : Nat → Nat) (o : Nat) : Nat → Nat → (Nat → Nat)
  | 0, _ => r
  | n+1, v => writeLE (upd r o (v % 256)) (o+1) n (v / 256)

/-- Little-endian load of n bytes at offset o. -/
def readLE (r : Nat → Nat) (o : Nat) : Nat → Nat
  | 0 => 0
  | n+1 => r o + 256 * readLE r (o+1) n

/-- A freshly mmapped region reads as zero bytes on first mount. -/
def zeroRegion : Nat → Nat := fun _ => 0

/-- First-time initialization branch of mount_filesystem
    (implementation.c lines 575-607), written as the exact sequence of
    stores the source performs.  sec and nsec are the timespec fields
    delivered by clock_gettime inside update_time(root, 1).
    Offsets: the superblock occupies bytes 0..31, the root inode bytes
    32..343 (so its name is at 32, its times at 288..319, its type byte at
    320 and its directory payload words at 328 and 336), the children-table
    size header is at 344, the 4-slot table itself at 352..383, and the
    initial free block header at 384. -/
def first_mount (fssize sec nsec : Nat) (r : Nat → Nat) : Nat → Nat :=
  let r1 := writeLE r 0 4 MAGIC_NUMBER            -- sb->magic_number = MAGIC_NUMBER
  let r2 := writeLE r1 24 8 fssize                -- sb->size = fssize
  let r3 := writeLE r2 16 8 32                    -- sb->root_directory = sizeof(superblock_t)
  let r4 := memsetZero r3 32 256                  -- memset(root->name, 0, NAME_MAX_LEN + 1)
  let r5 := upd r4 32 47                          -- memcpy(root->name, "/", 1)
  let r6 := writeLE r5 288 8 sec                  -- update_time: time[0].tv_sec
  let r7 := writeLE r6 296 8 nsec                 -- update_time: time[0].tv_nsec
  let r8 := writeLE r7 304 8 sec                  -- update_time: time[1].tv_sec
  let r9 := writeLE r8 312 8 nsec                 -- update_time: time[1].tv_nsec
  let r10 := upd r9 320 2                         -- root->type = 2
  let r11 := writeLE r10 328 8 1                  -- directory->num_children = 1
  let r12 := writeLE r11 344 8 32                 -- *children_size = 4 * sizeof(fs_offset)
  let r13 := writeLE r12 336 8 352                -- directory->children = offset of the table
  let r14 := writeLE r13 352 8 0                  -- *ptr = 0 (root has no parent)
  let r15 := writeLE r14 8 8 384                  -- sb->free_memory = children + *children_size
  let r16 := writeLE r15 384 8 (fssize - 392)     -- fb->remaining = fssize - free_memory - 8
  memsetZero r16 392 (fssize - 392)               -- memset(fb + 8, 0, fb->remaining)

/-- mount_filesystem (implementation.c lines 571-608): initialize the
    region if and only if the superblock magic does not match. -/
def mount_filesystem (fssize sec nsec : Nat) (r : Nat → Nat) : Nat → Nat :=
  if readLE r 0 4 = MAGIC_NUMBER then r else first_mount fssize sec nsec r

/-- The region as it looks after the very first mount of a fresh
    (all-zero) region. -/
def fresh_mount (fssize sec nsec : Nat) : Nat → Nat :=
  mount_filesystem fssize sec nsec zeroRegion

/-! ## Block-list model of the region allocator

    A free-list state is the sequence of free blocks in link order, each
    recorded as its header offset together with its remaining field (the
    usable bytes after the 8-byte size_t header; the next field of
    data_block_t overlays the first 8 bytes of those usable bytes).  The C
    walks the list through next offsets; the list here is that link
    order. -/

/-- One free block: header offset and remaining byte count. -/
structure FreeBlock where
  off : Nat
  rem : Nat
deriving DecidableEq

/-- Walk of add_to_free_memory for a freed block that does not come before
    the list head (implementation.c lines 260-292): advance while the next
    block still lies below the new offset, then splice the new block in,
    merging with the successor when new_off + 8 + new_rem equals the
    successor offset and with the predecessor when pred_off + 8 + pred_rem
    equals the new offset. -/
def insertLoop (newOff newRem : Nat) : FreeBlock → List FreeBlock → List FreeBlock
  | c, n :: rest =>
    if n.off < newOff then
      c :: insertLoop newOff newRem n rest
    else
      if newOff + 8 + newRem = n.off then
        if c.off + 8 + c.rem = newOff then
          ⟨c.off, c.rem + 8 + (newRem + 8 + n.rem)⟩ :: rest
        else
          c :: ⟨newOff, newRem + 8 + n.rem⟩ :: rest
      else
        if c.off + 8 + c.rem = newOff then
          ⟨c.off, c.rem + 8 + newRem⟩ :: n :: rest
        else
          c :: ⟨newOff, newRem⟩ :: n :: rest
  | c, [] =>
    if c.off + 8 + c.rem = newOff then [⟨c.off, c.rem + 8 + newRem⟩]
    else [c, ⟨newOff, newRem⟩]

/-- add_to_free_memory (implementation.c lines 240-293).  When the freed
    block comes before the current head it becomes the new head, merging
    with the old head when adjacent; otherwise the insertion walk runs.
    With an empty list the C walks into the superblock, whose free_memory
    field at offset 8 doubles as the next field of the pseudo data_block at
    offset 0, so the net effect (the pseudo-remaining read from the magic
    field never makes the predecessor check match for an in-region offset)
    is that the freed block becomes the single list element. -/
def add_to_free_memory (newOff newRem : Nat) : List FreeBlock → List FreeBlock
  | [] => [⟨newOff, newRem⟩]
  | h :: t =>
    if h.off > newOff then
      if newOff + 8 + newRem = h.off then ⟨newOff, newRem + 8 + h.rem⟩ :: t
      else ⟨newOff, newRem⟩ :: h :: t
    else insertLoop newOff newRem h t

/-- Modelled from the spec (section 4.2, Free): insert the freed block into
    the free list at the correct ascending-offset position.  Used only to
    compare add_to_free_memory against the words of the spec. -/
def sortedInsert (b : FreeBlock) : List FreeBlock → List FreeBlock
  | [] => [b]
  | h :: t => if b.off < h.off then b :: h :: t else h :: sortedInsert b t

/-- Modelled from the spec (section 4.2, Free): coalesce every pair of
    physically adjacent free blocks, i.e. merge a with its successor b
    exactly when a.off + 8 + a.rem = b.off.  Used only to compare
    add_to_free_memory against the words of the spec. -/
def coalesce : List FreeBlock → List FreeBlock
  | [] => []
  | [a] => [a]
  | a :: b :: t =>
    if a.off + 8 + a.rem = b.off then coalesce (⟨a.off, a.rem + 8 + b.rem⟩ :: t)
    else a :: coalesce (b :: t)
termination_by l => l.length
decreasing_by all_goals simp [List.length_cons]

/-- Address order with a strictly positive gap between blocks: the free
    list is ascending and no two neighbours are physically adjacent. -/
def Sep (l : List FreeBlock) : Prop :=
  List.Chain' (fun a b : FreeBlock => a.off + 8 + a.rem < b.off) l

/-- The freed block is disjoint from every free block: each block either
    ends at or before the freed offset, or starts at or after the freed
    block end. -/
def Fits (newOff newRem : Nat) (l : List FreeBlock) : Prop :=
  ∀ b ∈ l, b.off + 8 + b.rem ≤ newOff ∨ newOff + 8 + newRem ≤ b.off

/-- Result of get_memory_block: the returned payload offset (none for
    NULL), the free list afterwards, the in-out size parameter afterwards,
    and the header store performed on the allocated block, if any. -/
structure GMB where
  ret : Option Nat
  free : List FreeBlock
  size : Nat
  hdrSet : Option (Nat × Nat)
deriving DecidableEq

/-- Index of the first block of maximal remaining size, as computed by the
    scan loop of get_memory_block (implementation.c lines 378-405): the
    largest starts as the head and is replaced only on strictly greater
    remaining.  The fold state is (best index, best remaining, current
    index). -/
def scanStep (st : Nat × Nat × Nat) (b : FreeBlock) : Nat × Nat × Nat :=
  if b.rem > st.2.1 then (st.2.2, b.rem, st.2.2 + 1)
  else (st.1, st.2.1, st.2.2 + 1)

def firstMaxIdx (l : List FreeBlock) : Nat :=
  match l with
  | [] => 0
  | h :: t => (t.foldl scanStep (0, h.rem, 1)).1

/-- get_memory_block (implementation.c lines 340-445), specialized to the
    call pattern of malloc_impl with a NULL preferred block: malloc_impl
    passes selected_block == fsptr, so the extend_avail_block paths at
    lines 366-376 and 389-394 are never taken (selected_block_offset stays
    0 and never equals a list offset).  An empty list returns NULL before
    the minimum-size adjustment.  Otherwise the size is first raised to
    sizeof(data_block_t) = 16, the scan selects the first largest block,
    and:
    with remaining > size + 16 the block is split, keeping a new free
    header right after the carved payload and storing size into the
    allocated header; with size <= remaining <= size + 16 the whole block
    is taken (when the largest is the head, the source sets the head to 0,
    dropping any later blocks, line 425); with remaining < size and the
    largest at the head the call returns NULL; with remaining < size
    otherwise the largest is unlinked and returned with the residual
    request left in the in-out size, a partial fulfilment. -/
def get_memory_block (l : List FreeBlock) (size0 : Nat) : GMB :=
  match l with
  | [] => ⟨none, [], size0, none⟩
  | h :: t =>
    let size := if size0 < 16 then 16 else size0
    let k := firstMaxIdx (h :: t)
    let b := (h :: t).getD k h
    if b.rem ≥ size then
      if b.rem > size + 16 then
        ⟨some (b.off + 8), (h :: t).set k ⟨b.off + 8 + size, b.rem - size - 8⟩,
          0, some (b.off, size)⟩
      else
        if k = 0 then ⟨some (b.off + 8), [], 0, none⟩
        else ⟨some (b.off + 8), (h :: t).eraseIdx k, 0, none⟩
    else
      if k = 0 then ⟨none, h :: t, size, none⟩
      else ⟨some (b.off + 8), (h :: t).eraseIdx k, size - b.rem, none⟩

/-! ## Offset and pointer translation (component C1 of the spec)

    Host addresses are modelled as Nat values below 2^64; pointer
    arithmetic on them wraps modulo the address space, which is the only
    overflow the source itself tests for. -/

def ADDR_SPACE : Nat := 2 ^ 64

/-- pointer_to_offset (implementation.c lines 531-536): 0 when the pointer
    lies below the region base, the plain difference otherwise.  No upper
    bound is consulted. -/
def pointer_to_offset (base p : Nat) : Nat :=
  if base > p then 0 else p - base

/-- offset_to_pointer (implementation.c lines 538-546): base + offset, with
    NULL returned exactly when the addition wraps around the address space
    to a value below the base.  No region length is consulted. -/
def offset_to_pointer (base off : Nat) : Option Nat :=
  let p := (base + off) % ADDR_SPACE
  if p < base then none else some p

/-- Modelled from the spec (section 4.1): the claimed pointer-to-offset
    translation, bounds-checked against the region length.  Used only to
    compare the source functions against the words of the spec. -/
def pointer_to_offset_spec (base len p : Nat) : Nat :=
  if base ≤ p ∧ p ≤ base + len then p - base else 0

/-- Modelled from the spec (section 4.1): the claimed offset-to-pointer
    translation, bounds-checked against the region length.  Used only to
    compare the source functions against the words of the spec. -/
def offset_to_pointer_spec (base len off : Nat) : Option Nat :=
  if off ≤ len then some (base + off) else none

/-- The statement of claim C6, to be refuted: both translation functions
    agree with the length-checked spec versions for every length. -/
def translationClaim : Prop :=
  (∀ base len p, pointer_to_offset base p = pointer_to_offset_spec base len p) ∧
  (∀ base len off, offset_to_pointer base off = offset_to_pointer_spec base len off)

/-! ## Record-level model of the mounted filesystem

    The region is viewed through total maps from offsets to typed records,
    exactly as the C reinterprets raw bytes through casts: nodes gives the
    inode_t view at an offset, slots the children-table view (table offset
    and index to stored offset), fblocks the file_block_t view, and hdrRem
    the allocation-header view read by free_impl at ptr - 8.  The two
    words of the inode value union alias each other, so they are modelled
    once: u0 is file.size as well as directory.num_children, and u1 is
    file.first_block as well as directory.children.  Timestamps keep only
    tv_sec, the sole timespec field the modelled operations read.
    Operations thread this state explicitly; an errno write is returned as
    an Option Nat next to the C return value. -/

/-- Inode view (inode_t of implementation.h): name, the tv_sec fields of
    time[0] and time[1], the type tag (1 file, 2 directory), and the two
    aliased union words. -/
structure NodeView where
  name : List Char
  atime : Nat
  mtime : Nat
  type : Nat
  u0 : Nat
  u1 : Nat
deriving DecidableEq

/-- File-block view (file_block_t of implementation.h). -/
structure FileBlock where
  size : Nat
  allocated : Nat
  next : Nat
  data : Nat
deriving DecidableEq

/-- The mounted-region state: allocator free list plus the typed views of
    region memory and the superblock root_directory field. -/
structure Mem where
  free : List FreeBlock
  hdrRem : Nat → Nat
  nodes : Nat → NodeView
  slots : Nat → Nat → Nat
  fblocks : Nat → FileBlock
  rootOff : Nat

/-- Pointwise update of a view map. -/
def updFn {α : Type} (f : Nat → α) (k : Nat) (v : α) : Nat → α :=
  fun a => if a = k then v else f a

/-- Error numbers of the Linux ABI the source compiles against. -/
def ENOENT : Nat := 2
def EFAULT : Nat := 14
def ENOTDIR : Nat := 20
def EISDIR : Nat := 21
def ENOSPC : Nat := 28

/-- File-type bits used by getattr: the glibc values of the macros
    __S_IFREG and __S_IFDIR. -/
def S_IFREG : Nat := 32768
def S_IFDIR : Nat := 16384

/-- malloc_impl (implementation.c lines 447-461) with a NULL preferred
    pointer: a zero request returns NULL untouched, otherwise
    get_memory_block runs (the NULL selected pointer becomes
    selected_block == fsptr, disabling the adjacent-extension paths).
    Returns the payload offset, the new state, and the in-out size. -/
def malloc_impl (m : Mem) (size : Nat) : Option Nat × Mem × Nat :=
  if size = 0 then (none, m, size)
  else
    let r := get_memory_block m.free size
    let hdr1 := match r.hdrSet with
                | some (o, v) => updFn m.hdrRem o v
                | none => m.hdrRem
    (r.ret, { m with free := r.free, hdrRem := hdr1 }, r.size)

/-- free_impl (implementation.c lines 517-525): NULL is ignored, otherwise
    the block header sits 8 bytes before the payload and its remaining
    field is read from memory. -/
def free_impl (m : Mem) (ptr : Option Nat) : Mem :=
  match ptr with
  | none => m
  | some p =>
    { m with free := add_to_free_memory (p - 8) (m.hdrRem (p - 8)) m.free }

/-- update_time (implementation.c lines 552-569): clock_gettime is assumed
    to succeed delivering now; the node pointer is never NULL at the
    modelled call sites. -/
def update_time (m : Mem) (off now : Nat) (setMod : Bool) : Mem :=
  let n := m.nodes off
  let n2 := { n with atime := now, mtime := if setMod then now else n.mtime }
  { m with nodes := updFn m.nodes off n2 }

/-! Path resolution.  Paths and names are the C strings as character
    lists. -/

def countSlash (path : List Char) : Nat := path.count '/'

/-- Split on the slash character, mirroring the token scan of tokenize. -/
def splitSlash : List Char → List (List Char)
  | [] => [[]]
  | c :: t =>
    if c = '/' then [] :: splitSlash t
    else
      match splitSlash t with
      | [] => [[c]]
      | s :: rest => (c :: s) :: rest

/-- tokenize (implementation.c lines 644-695): the token count is the
    number of slashes in the whole path minus skip_n_tokens, and the
    tokens are read from position 1 onwards, splitting on slashes. -/
def tokenize (path : List Char) (skip : Nat) : List (List Char) :=
  (splitSlash (path.drop 1)).take (countSlash path - skip)

/-- The child scan of get_node (implementation.c lines 713-720): indices 1
    to num_children - 1 of the children table, first name match wins.  The
    second argument counts the remaining iterations. -/
def scanChildren (m : Mem) (tbl : Nat) (child : List Char) :
    Nat → Nat → Option Nat
  | _, 0 => none
  | i, k + 1 =>
    let off := m.slots tbl i
    if (m.nodes off).name = child then some off
    else scanChildren m tbl child (i + 1) k

/-- get_node (implementation.c lines 702-724): the name ".." returns the
    pointer at the offset stored in slot 0 unconditionally (for the root
    this offset is 0, so the returned pointer is fsptr, the superblock,
    and never NULL); any other name is looked up by the linear scan. -/
def get_node (m : Mem) (numChildren tbl : Nat) (child : List Char) :
    Option Nat :=
  if child = ['.', '.'] then some (m.slots tbl 0)
  else scanChildren m tbl child 1 (numChildren - 1)

/-- The token walk of resolve_path (implementation.c lines 744-760): a
    file rejects further components, "." stays in place, anything else
    goes through get_node. -/
def resolveLoop (m : Mem) : Nat → List (List Char) → Option Nat
  | off, [] => some off
  | off, tok :: rest =>
    let node := m.nodes off
    if node.type = 1 then none
    else if tok = ['.'] then resolveLoop m off rest
    else
      match get_node m node.u0 node.u1 tok with
      | none => none
      | some off2 => resolveLoop m off2 rest

/-- resolve_path (implementation.c lines 726-765). -/
def resolve_path (m : Mem) (path : List Char) (skip : Nat) : Option Nat :=
  match path with
  | [] => none
  | c :: rest =>
    if c ≠ '/' then none
    else if rest = [] then some m.rootOff
    else resolveLoop m m.rootOff (tokenize (c :: rest) skip)

/-! The getattr entry point. -/

/-- The subset of struct stat written by the source; unwritten fields keep
    whatever the caller passed in. -/
structure StatBuf where
  uid : Nat
  gid : Nat
  mode : Nat
  nlink : Nat
  size : Nat
  atime : Nat
  mtime : Nat
deriving DecidableEq

/-- The nlink loop of the getattr directory branch (implementation.c lines
    1057-1062): one extra link per child of type directory. -/
def count_subdirs (m : Mem) (tbl numChildren : Nat) : Nat :=
  ((List.range numChildren).drop 1).foldl
    (fun acc i => if (m.nodes (m.slots tbl i)).type = 2 then acc + 1 else acc) 0

/-- __myfs_getattr_implem (implementation.c lines 1025-1066).
    mount_filesystem runs first in the C; on an already mounted region it
    changes nothing (theorem mount_idempotent), and record states model
    mounted regions.  Files get st_mode = __S_IFREG and their size and
    tv_sec fields; directories get st_mode = __S_IFDIR and the nlink
    count, and their size, atime and mtime slots are left untouched. -/
def getattr (m : Mem) (uid gid : Nat) (path : List Char) (st : StatBuf) :
    Int × Option Nat × StatBuf :=
  match resolve_path m path 0 with
  | none => (-1, some ENOENT, st)
  | some off =>
    let n := m.nodes off
    let st1 := { st with uid := uid, gid := gid }
    if n.type = 1 then
      let stf := { st1 with mode := S_IFREG, nlink := 1, size := n.u0, atime := n.atime, mtime := n.mtime }
      (0, none, stf)
    else
      let std := { st1 with mode := S_IFDIR, nlink := 2 + count_subdirs m n.u1 n.u0 }
      (0, none, std)

/-! File-content helpers used by truncate.  The loops of the C walk chains
    through next offsets that the region contents do not bound, so every
    walk takes a fuel argument large enough for the chain at hand; fuel
    exhaustion returns the state reached so far. -/

/-- malloc_file_block (implementation.c lines 927-936): allocate
    sizeof(file_block_t) = 32 bytes and zero the record.  Only the NULL
    result is checked; a partial allocation (nonzero residual size) passes
    as success, and the payload capacity and data region are never
    allocated. -/
def malloc_file_block (m : Mem) : Option Nat × Option Nat × Mem :=
  match malloc_impl m 32 with
  | (none, m1, _) => (none, some ENOSPC, m1)
  | (some b, m1, _) =>
    (some b, none, { m1 with fblocks := updFn m1.fblocks b ⟨0, 0, 0, 0⟩ })

/-- append_data_block (implementation.c lines 938-949): zero-fill up to
    min(size, capacity - allocated) payload bytes (the raw bytes are not
    modelled), bump allocated, and report ENOSPC when the block space was
    not enough. -/
def append_data_block (m : Mem) (b size : Nat) : Bool × Option Nat × Mem :=
  let blk := m.fblocks b
  let space := blk.size - blk.allocated
  let app := min size space
  let blk2 := { blk with allocated := blk.allocated + app }
  let m1 := { m with fblocks := updFn m.fblocks b blk2 }
  if app < size then (false, some ENOSPC, m1) else (true, none, m1)

/-- extend_block_with_zeros (implementation.c lines 951-958). -/
def extend_block_with_zeros (m : Mem) (b asize : Nat) : Bool × Mem :=
  let blk := m.fblocks b
  let space := blk.size - blk.allocated
  let app := min asize space
  let blk2 := { blk with allocated := blk.allocated + app }
  let m1 := { m with fblocks := updFn m.fblocks b blk2 }
  (app == asize, m1)

/-- free_file_blocks (implementation.c lines 960-969): walk the chain
    freeing each record (not its data).  The guard block != NULL never
    stops the walk because offset_to_pointer returns a non-NULL pointer
    for every offset, 0 included; the fuel bounds the modelled prefix of
    the walk. -/
def free_file_blocks : Nat → Mem → Nat → Mem
  | 0, m, _ => m
  | f + 1, m, bOff =>
    let nxt := (m.fblocks bOff).next
    free_file_blocks f (free_impl m (some bOff)) nxt

/-- Result of the block-extension walk of add_data: either the function
    returned inside the loop, or control fell through to the append
    loop. -/
inductive WalkRes where
  | done (ret : Int) (err : Option Nat) (m : Mem)
  | fall (m : Mem) (size : Nat)

/-- The while (block->next != 0) walk of add_data (implementation.c lines
    992-1003): the last chain block is never extended; a failed extension
    returns -1 without touching errno (the extension in fact always
    reports success because its append amount is pre-clamped). -/
def walkExtend : Nat → Mem → Nat → Nat → WalkRes
  | 0, m, _, size => .fall m size
  | f + 1, m, b, size =>
    if (m.fblocks b).next = 0 then .fall m size
    else
      let blk := m.fblocks b
      let space := blk.size - blk.allocated
      let app := min size space
      match extend_block_with_zeros m b app with
      | (ok, m1) =>
        if ok then
          if size - app = 0 then .done 0 none m1
          else walkExtend f m1 blk.next (size - app)
        else .done (-1) none m1

/-- The while (size > 0) append loop of add_data (implementation.c lines
    1006-1018): each round allocates a fresh zeroed record (whose capacity
    is 0, so the append always falls short for a positive size), and on
    append failure frees the file chain from first_block before returning
    -1.  prev starts as NULL, so the first new block is never linked to
    the existing chain. -/
def appendLoop : Nat → Mem → Nat → Option Nat → Nat → Int × Option Nat × Mem
  | 0, m, _, _, _ => (0, none, m)
  | f + 1, m, nodeOff, prev, size =>
    if size = 0 then (0, none, m)
    else
      match malloc_file_block m with
      | (none, e, m1) => (-1, e, m1)
      | (some b, _, m1) =>
        match append_data_block m1 b size with
        | (false, e, m2) => (-1, e, free_file_blocks f m2 ((m2.nodes nodeOff).u1))
        | (true, _, m2) =>
          let size1 := size - (m2.fblocks b).allocated
          let m3 := match prev with
                    | some p =>
                      let pb := { m2.fblocks p with next := b }
                      { m2 with fblocks := updFn m2.fblocks p pb }
                    | none => m2
          appendLoop f m3 nodeOff (some b) size1

/-- add_data (implementation.c lines 971-1021) on the file payload of the
    inode at nodeOff (u0 is file.size, u1 is file.first_block).  For an
    empty file the first record is linked in before its append is
    attempted, so a failed append leaves the fresh record attached. -/
def add_data (m : Mem) (nodeOff size fuel : Nat) : Int × Option Nat × Mem :=
  let firstB := (m.nodes nodeOff).u1
  if firstB = 0 then
    match malloc_file_block m with
    | (none, e, m1) => (-1, e, m1)
    | (some b, _, m1) =>
      let nd := { m1.nodes nodeOff with u1 := b }
      let m2 := { m1 with nodes := updFn m1.nodes nodeOff nd }
      let bsz := min size 1024
      match append_data_block m2 b bsz with
      | (false, e, m3) => (-1, e, m3)
      | (true, _, m3) => appendLoop fuel m3 nodeOff none (size - bsz)
  else
    match walkExtend fuel m firstB size with
    | .done r e m1 => (r, e, m1)
    | .fall m1 size1 => appendLoop fuel m1 nodeOff none size1

/-- The cut-position walk of remove_data (implementation.c lines 887-899):
    find the block containing the new end and the index inside it.  The
    per-block allocated counts are read but never written. -/
def cutWalk : Nat → Mem → Nat → Nat → Nat × Nat
  | 0, _, b, _ => (b, 0)
  | f + 1, m, b, size =>
    if size = 0 then (b, 0)
    else if size > (m.fblocks b).allocated then
      cutWalk f m ((m.fblocks b).next) (size - (m.fblocks b).allocated)
    else (b, size)

/-- The trailing-chain release of remove_data (implementation.c lines
    910-924): while the block pointer differs from fsptr (offset nonzero),
    free the data allocation and then the record. -/
def freeChain : Nat → Mem → Nat → Mem
  | 0, m, _ => m
  | f + 1, m, b =>
    if b = 0 then m
    else
      let m1 := free_impl m (some ((m.fblocks b).data))
      let nxt := (m.fblocks b).next
      freeChain f (free_impl m1 (some b)) nxt

/-- remove_data (implementation.c lines 881-925).  The NULL check on the
    block pointer never fires, since offset_to_pointer is non-NULL for
    every in-range offset.  When the cut leaves room behind idx, a free
    header is written into the data payload and the tail is freed; the cut
    block keeps its allocated count and its next field unchanged. -/
def remove_data (m : Mem) (blockOff size fuel : Nat) : Mem :=
  let bi := cutWalk fuel m blockOff size
  let blk := m.fblocks bi.1
  let m1 :=
    if bi.2 + 16 < blk.allocated then
      let mh := { m with hdrRem := updFn m.hdrRem (blk.data + bi.2) (blk.allocated - bi.2 - 8) }
      free_impl mh (some (blk.data + bi.2 + 8))
    else m
  freeChain fuel m1 blk.next

/-- __myfs_truncate_implem (implementation.c lines 1216-1272).
    mount_filesystem runs first in the C; record states model mounted
    regions.  Note the type guard at line 1238: the source rejects type ==
    1, which is the regular-file tag, with EISDIR, against its own comment
    and lets directories through to the file branches. -/
def truncate (m : Mem) (path : List Char) (off : Int) (now fuel : Nat) :
    Int × Option Nat × Mem :=
  if off < 0 then (-1, some EFAULT, m)
  else
    let new_size := off.toNat
    match resolve_path m path 0 with
    | none => (-1, some ENOENT, m)
    | some nOff =>
      let node := m.nodes nOff
      if node.type = 1 then (-1, some EISDIR, m)
      else
        let firstBlock := node.u1
        if node.u0 = new_size then
          (0, none, update_time m nOff now false)
        else if node.u0 > new_size then
          let m1 := update_time m nOff now true
          let nd := { m1.nodes nOff with u0 := new_size }
          let m2 := { m1 with nodes := updFn m1.nodes nOff nd }
          (0, none, remove_data m2 firstBlock new_size fuel)
        else
          let m1 := update_time m nOff now true
          match add_data m1 nOff new_size fuel with
          | (r, e, m2) => if r ≠ 0 then (-1, e, m2) else (0, e, m2)

/-! Concrete mounted states used by the evaluation theorems. -/

def blankNode : NodeView := ⟨[], 0, 0, 0, 0, 0⟩

def blankFB : FileBlock := ⟨0, 0, 0, 0⟩

/-- A stat buffer with recognizable caller contents in the fields getattr
    may leave untouched. -/
def sampleStat : StatBuf := ⟨0, 0, 0, 0, 77, 88, 99⟩

/-- Root directory at offset 32 (2 children: parent slot and the file),
    children table at 352 with slot 1 pointing at the regular file "f" of
    size 6 at offset 1000. -/
def sampleFS : Mem :=
  { free := []
    hdrRem := fun _ => 0
    nodes := fun off =>
      if off = 32 then ⟨['/'], 3, 4, 2, 2, 352⟩
      else if off = 1000 then ⟨['f'], 5, 7, 1, 6, 0⟩
      else blankNode
    slots := fun tbl i => if tbl = 352 ∧ i = 1 then 1000 else 0
    fblocks := fun _ => blankFB
    rootOff := 32 }

/-- Root directory plus the regular file "t" of size 10 at offset 600,
    whose single chunk at offset 700 has capacity 1024 and allocated 10. -/
def shrinkFS : Mem :=
  { free := []
    hdrRem := fun _ => 0
    nodes := fun off =>
      if off = 32 then ⟨['/'], 3, 4, 2, 2, 352⟩
      else if off = 600 then ⟨['t'], 5, 7, 1, 10, 700⟩
      else blankNode
    slots := fun tbl i => if tbl = 352 ∧ i = 1 then 600 else 0
    fblocks := fun b => if b = 700 then ⟨1024, 10, 0, 800⟩ else blankFB
    rootOff := 32 }

/-- An empty regular file at offset 1000 and a single 100-byte free block
    at offset 500: ample room for the file_block record that a grow
    allocates. -/
def growFS : Mem :=
  { free := [⟨500, 100⟩]
    hdrRem := fun _ => 0
    nodes := fun off => if off = 1000 then ⟨['g'], 0, 0, 1, 0, 0⟩ else blankNode
    slots := fun _ _ => 0
    fblocks := fun _ => blankFB
    rootOff := 32 }

/-! Basic lemmas about the byte-level primitives. -/

theorem upd_eq (r : Nat → Nat) (o b : Nat) : upd r o b o = b := by
  simp [upd]

theorem upd_ne (r : Nat → Nat) (o b a : Nat) (h : a ≠ o) : upd r o b a = r a := by
  simp [upd, h]

theorem memsetZero_in (r : Nat → Nat) (o n a : Nat) (h1 : o ≤ a) (h2 : a < o + n) :
    memsetZero r o n a = 0 := by
  simp [memsetZero, h1, h2]

theorem memsetZero_out (r : Nat → Nat) (o n a : Nat) (h : a < o ∨ o + n ≤ a) :
    memsetZero r o n a = r a := by
  rcases h with h | h <;> simp [memsetZero] <;> omega

theorem writeLE_out : ∀ (n : Nat) (r : Nat → Nat) (o v a : Nat),
    (a < o ∨ o + n ≤ a) → writeLE r o n v a = r a := by
  intro n
  induction n with
  | zero => intro r o v a _; rfl
  | succ n ih =>
    intro r o v a h
    show writeLE (upd r o (v % 256)) (o+1) n (v / 256) a = r a
    rw [ih _ _ _ _ (by omega)]
    exact upd_ne _ _ _ _ (by omega)

theorem readLE_congr : ∀ (n : Nat) (r r' : Nat → Nat) (o : Nat),
    (∀ a, o ≤ a → a < o + n → r a = r' a) → readLE r o n = readLE r' o n := by
  intro n
  induction n with
  | zero => intro r r' o _; rfl
  | succ n ih =>
    intro r r' o h
    show r o + 256 * readLE r (o+1) n = r' o + 256 * readLE r' (o+1) n
    rw [h o (by omega) (by omega), ih _ _ _ (fun a h1 h2 => h a (by omega) (by omega))]

theorem readLE_writeLE : ∀ (n : Nat) (r : Nat → Nat) (o v : Nat),
    readLE (writeLE r o n v) o n = v % 2 ^ (8 * n) := by
  intro n
  induction n with
  | zero => intro r o v; simp [readLE, Nat.mod_one]
  | succ n ih =>
    intro r o v
    show writeLE (upd r o (v % 256)) (o+1) n (v / 256) o +
        256 * readLE (writeLE (upd r o (v % 256)) (o+1) n (v / 256)) (o+1) n =
        v % 2 ^ (8 * (n+1))
    rw [writeLE_out _ _ _ _ _ (by omega), upd_eq, ih]
    have h1 : 8 * (n + 1) = 8 + 8 * n := by ring
    rw [h1, pow_add]
    have h2 : (2 : Nat) ^ 8 = 256 := by norm_num
    rw [h2, Nat.mod_mul]

theorem readLE_skip_write (r : Nat → Nat) (o n v o' n' : Nat)
    (h : o' + n' ≤ o ∨ o + n ≤ o') :
    readLE (writeLE r o n v) o' n' = readLE r o' n' := by
  exact readLE_congr _ _ _ _ (fun a h1 h2 => writeLE_out _ _ _ _ _ (by omega))

theorem readLE_skip_memset (r : Nat → Nat) (o n o' n' : Nat)
    (h : o' + n' ≤ o ∨ o + n ≤ o') :
    readLE (memsetZero r o n) o' n' = readLE r o' n' := by
  exact readLE_congr _ _ _ _ (fun a h1 h2 => memsetZero_out _ _ _ _ (by omega))

theorem readLE_skip_upd (r : Nat → Nat) (o b o' n' : Nat)
    (h : o < o' ∨ o' + n' ≤ o) :
    readLE (upd r o b) o' n' = readLE r o' n' := by
  exact readLE_congr _ _ _ _ (fun a h1 h2 => upd_ne _ _ _ _ (by omega))

theorem readLE_zeroRegion : ∀ (n o : Nat), readLE zeroRegion o n = 0 := by
  intro n
  induction n with
  | zero => intro o; rfl
  | succ n ih => intro o; show zeroRegion o + 256 * readLE zeroRegion (o+1) n = 0
                 rw [ih]; rfl

theorem readLE_memset_in (r : Nat → Nat) (o n o' n' : Nat)
    (h1 : o ≤ o') (h2 : o' + n' ≤ o + n) :
    readLE (memsetZero r o n) o' n' = 0 := by
  rw [readLE_congr n' _ zeroRegion o'
    (fun a ha1 ha2 => memsetZero_in _ _ _ _ (by omega) (by omega))]
  exact readLE_zeroRegion _ _

/-- After first_mount the magic field reads back as MAGIC_NUMBER,
    on any base region. -/
theorem magic_after_first_mount (fssize sec nsec : Nat) (r : Nat → Nat) :
    readLE (first_mount fssize sec nsec r) 0 4 = MAGIC_NUMBER := by
  show readLE (memsetZero (writeLE (writeLE (writeLE (writeLE (writeLE (writeLE
      (upd (writeLE (writeLE (writeLE (writeLE (upd (memsetZero (writeLE (writeLE
      (writeLE r 0 4 MAGIC_NUMBER) 24 8 fssize) 16 8 32) 32 256) 32 47)
      288 8 sec) 296 8 nsec) 304 8 sec) 312 8 nsec) 320 2) 328 8 1) 344 8 32)
      336 8 352) 352 8 0) 8 8 384) 384 8 (fssize - 392)) 392 (fssize - 392)) 0 4
      = MAGIC_NUMBER
  rw [readLE_skip_memset _ _ _ _ _ (by omega),
      readLE_skip_write _ _ _ _ _ _ (by omega),
      readLE_skip_write _ _ _ _ _ _ (by omega),
      readLE_skip_write _ _ _ _ _ _ (by omega),
      readLE_skip_write _ _ _ _ _ _ (by omega),
      readLE_skip_write _ _ _ _ _ _ (by omega),
      readLE_skip_write _ _ _ _ _ _ (by omega),
      readLE_skip_upd _ _ _ _ _ (by omega),
      readLE_skip_write _ _ _ _ _ _ (by omega),
      readLE_skip_write _ _ _ _ _ _ (by omega),
      readLE_skip_write _ _ _ _ _ _ (by omega),
      readLE_skip_write _ _ _ _ _ _ (by omega),
      readLE_skip_upd _ _ _ _ _ (by omega),
      readLE_skip_memset _ _ _ _ _ (by omega),
      readLE_skip_write _ _ _ _ _ _ (by omega),
      readLE_skip_write _ _ _ _ _ _ (by omega),
      readLE_writeLE]
  norm_num [MAGIC_NUMBER]

/-- On a zeroed region the magic test fails, so mount_filesystem runs the
    first-time initialization. -/
theorem mount_zero_eq (fssize sec nsec : Nat) :
    mount_filesystem fssize sec nsec zeroRegion = first_mount fssize sec nsec zeroRegion := by
  unfold mount_filesystem
  rw [if_neg]
  rw [readLE_zeroRegion]
  norm_num [MAGIC_NUMBER]

/-- C4: mount_filesystem is a no-op whenever the superblock magic already
    matches MAGIC_NUMBER; in particular a second mount right after the
    first changes no byte of the region. -/
theorem mount_idempotent (r : Nat → Nat) (f s n f1 s1 n1 f0 s0 n0 : Nat)
    (hmagic : readLE r 0 4 = MAGIC_NUMBER) :
    mount_filesystem f s n r = r ∧
    mount_filesystem f1 s1 n1 (mount_filesystem f0 s0 n0 zeroRegion) =
      mount_filesystem f0 s0 n0 zeroRegion := by
  constructor
  · unfold mount_filesystem
    rw [if_pos hmagic]
  · rw [mount_zero_eq f0 s0 n0]
    unfold mount_filesystem
    rw [if_pos (magic_after_first_mount f0 s0 n0 zeroRegion)]

/-- Witness for mount_idempotent at a concrete region whose magic field
    holds MAGIC_NUMBER. -/
theorem mount_idempotent_witness :
    readLE (writeLE zeroRegion 0 4 MAGIC_NUMBER) 0 4 = MAGIC_NUMBER ∧
    (mount_filesystem 4096 5 6 (writeLE zeroRegion 0 4 MAGIC_NUMBER) =
        writeLE zeroRegion 0 4 MAGIC_NUMBER ∧
      mount_filesystem 4096 5 6 (mount_filesystem 2048 0 0 zeroRegion) =
        mount_filesystem 2048 0 0 zeroRegion) :=
  ⟨by decide, mount_idempotent _ 4096 5 6 4096 5 6 2048 0 0 (by decide)⟩

/-- C3: after the first mount of a zeroed region of size fssize (at least
    2048 bytes, a size_t value), the superblock holds MAGIC_NUMBER and the
    recorded size fssize; the root inode sits at offset 32 = sizeof
    superblock with name "/" (byte 47 then NUL bytes), type 2 = directory
    and num_children 1; the 4-slot children table (size header 32 = 4 *
    sizeof fs_offset at offset 344, right after the root inode, slots at
    352) has slot 0 equal to 0; the free-list head is 384, the first byte
    after the table; and a single free-block header at 384 with a zero
    next field covers the rest of the region: 384 + 8 + remaining =
    fssize. -/
theorem first_mount_layout (fssize sec nsec : Nat) (hsz : 2048 ≤ fssize)
    (h64 : fssize < 2 ^ 64) :
    readLE (fresh_mount fssize sec nsec) 0 4 = MAGIC_NUMBER ∧
    readLE (fresh_mount fssize sec nsec) 24 8 = fssize ∧
    readLE (fresh_mount fssize sec nsec) 16 8 = 32 ∧
    fresh_mount fssize sec nsec 32 = 47 ∧
    (∀ i, 1 ≤ i → i < 256 → fresh_mount fssize sec nsec (32 + i) = 0) ∧
    fresh_mount fssize sec nsec 320 = 2 ∧
    readLE (fresh_mount fssize sec nsec) 328 8 = 1 ∧
    readLE (fresh_mount fssize sec nsec) 336 8 = 352 ∧
    readLE (fresh_mount fssize sec nsec) 344 8 = 32 ∧
    readLE (fresh_mount fssize sec nsec) 352 8 = 0 ∧
    readLE (fresh_mount fssize sec nsec) 8 8 = 384 ∧
    readLE (fresh_mount fssize sec nsec) 384 8 = fssize - 392 ∧
    readLE (fresh_mount fssize sec nsec) 392 8 = 0 ∧
    352 = 32 + 312 + 8 ∧
    384 = 352 + 32 ∧
    384 + 8 + (fssize - 392) = fssize := by
  have hm : fresh_mount fssize sec nsec = first_mount fssize sec nsec zeroRegion :=
    mount_zero_eq fssize sec nsec
  have hmod : ∀ x : Nat, x < 2 ^ 64 → x % 2 ^ (8 * 8) = x := by
    intro x hx
    exact Nat.mod_eq_of_lt (by norm_num; omega)
  refine ⟨?_, ?_, ?_, ?_, ?_, ?_, ?_, ?_, ?_, ?_, ?_, ?_, ?_, by norm_num, by norm_num, by omega⟩
  · rw [hm]; exact magic_after_first_mount fssize sec nsec zeroRegion
  · rw [hm]; simp only [first_mount]
    rw [readLE_skip_memset _ _ _ _ _ (by omega),
        readLE_skip_write _ _ _ _ _ _ (by omega),
        readLE_skip_write _ _ _ _ _ _ (by omega),
        readLE_skip_write _ _ _ _ _ _ (by omega),
        readLE_skip_write _ _ _ _ _ _ (by omega),
        readLE_skip_write _ _ _ _ _ _ (by omega),
        readLE_skip_write _ _ _ _ _ _ (by omega),
        readLE_skip_upd _ _ _ _ _ (by omega),
        readLE_skip_write _ _ _ _ _ _ (by omega),
        readLE_skip_write _ _ _ _ _ _ (by omega),
        readLE_skip_write _ _ _ _ _ _ (by omega),
        readLE_skip_write _ _ _ _ _ _ (by omega),
        readLE_skip_upd _ _ _ _ _ (by omega),
        readLE_skip_memset _ _ _ _ _ (by omega),
        readLE_skip_write _ _ _ _ _ _ (by omega),
        readLE_writeLE]
    exact hmod fssize h64
  · rw [hm]; simp only [first_mount]
    rw [readLE_skip_memset _ _ _ _ _ (by omega),
        readLE_skip_write _ _ _ _ _ _ (by omega),
        readLE_skip_write _ _ _ _ _ _ (by omega),
        readLE_skip_write _ _ _ _ _ _ (by omega),
        readLE_skip_write _ _ _ _ _ _ (by omega),
        readLE_skip_write _ _ _ _ _ _ (by omega),
        readLE_skip_write _ _ _ _ _ _ (by omega),
        readLE_skip_upd _ _ _ _ _ (by omega),
        readLE_skip_write _ _ _ _ _ _ (by omega),
        readLE_skip_write _ _ _ _ _ _ (by omega),
        readLE_skip_write _ _ _ _ _ _ (by omega),
        readLE_skip_write _ _ _ _ _ _ (by omega),
        readLE_skip_upd _ _ _ _ _ (by omega),
        readLE_skip_memset _ _ _ _ _ (by omega),
        readLE_writeLE]
    norm_num
  · rw [hm]; simp only [first_mount]
    rw [memsetZero_out _ _ _ _ (by omega),
        writeLE_out _ _ _ _ _ (by omega),
        writeLE_out _ _ _ _ _ (by omega),
        writeLE_out _ _ _ _ _ (by omega),
        writeLE_out _ _ _ _ _ (by omega),
        writeLE_out _ _ _ _ _ (by omega),
        writeLE_out _ _ _ _ _ (by omega),
        upd_ne _ _ _ _ (by omega),
        writeLE_out _ _ _ _ _ (by omega),
        writeLE_out _ _ _ _ _ (by omega),
        writeLE_out _ _ _ _ _ (by omega),
        writeLE_out _ _ _ _ _ (by omega),
        upd_eq]
  · intro i hi1 hi2
    rw [hm]; simp only [first_mount]
    rw [memsetZero_out _ _ _ _ (by omega),
        writeLE_out _ _ _ _ _ (by omega),
        writeLE_out _ _ _ _ _ (by omega),
        writeLE_out _ _ _ _ _ (by omega),
        writeLE_out _ _ _ _ _ (by omega),
        writeLE_out _ _ _ _ _ (by omega),
        writeLE_out _ _ _ _ _ (by omega),
        upd_ne _ _ _ _ (by omega),
        writeLE_out _ _ _ _ _ (by omega),
        writeLE_out _ _ _ _ _ (by omega),
        writeLE_out _ _ _ _ _ (by omega),
        writeLE_out _ _ _ _ _ (by omega),
        upd_ne _ _ _ _ (by omega),
        memsetZero_in _ _ _ _ (by omega) (by omega)]
  · rw [hm]; simp only [first_mount]
    rw [memsetZero_out _ _ _ _ (by omega),
        writeLE_out _ _ _ _ _ (by omega),
        writeLE_out _ _ _ _ _ (by omega),
        writeLE_out _ _ _ _ _ (by omega),
        writeLE_out _ _ _ _ _ (by omega),
        writeLE_out _ _ _ _ _ (by omega),
        writeLE_out _ _ _ _ _ (by omega),
        upd_eq]
  · rw [hm]; simp only [first_mount]
    rw [readLE_skip_memset _ _ _ _ _ (by omega),
        readLE_skip_write _ _ _ _ _ _ (by omega),
        readLE_skip_write _ _ _ _ _ _ (by omega),
        readLE_skip_write _ _ _ _ _ _ (by omega),
        readLE_skip_write _ _ _ _ _ _ (by omega),
        readLE_skip_write _ _ _ _ _ _ (by omega),
        readLE_writeLE]
    norm_num
  · rw [hm]; simp only [first_mount]
    rw [readLE_skip_memset _ _ _ _ _ (by omega),
        readLE_skip_write _ _ _ _ _ _ (by omega),
        readLE_skip_write _ _ _ _ _ _ (by omega),
        readLE_skip_write _ _ _ _ _ _ (by omega),
        readLE_writeLE]
    norm_num
  · rw [hm]; simp only [first_mount]
    rw [readLE_skip_memset _ _ _ _ _ (by omega),
        readLE_skip_write _ _ _ _ _ _ (by omega),
        readLE_skip_write _ _ _ _ _ _ (by omega),
        readLE_skip_write _ _ _ _ _ _ (by omega),
        readLE_skip_write _ _ _ _ _ _ (by omega),
        readLE_writeLE]
    norm_num
  · rw [hm]; simp only [first_mount]
    rw [readLE_skip_memset _ _ _ _ _ (by omega),
        readLE_skip_write _ _ _ _ _ _ (by omega),
        readLE_skip_write _ _ _ _ _ _ (by omega),
        readLE_writeLE]
    norm_num
  · rw [hm]; simp only [first_mount]
    rw [readLE_skip_memset _ _ _ _ _ (by omega),
        readLE_skip_write _ _ _ _ _ _ (by omega),
        readLE_writeLE]
    norm_num
  · rw [hm]; simp only [first_mount]
    rw [readLE_skip_memset _ _ _ _ _ (by omega),
        readLE_writeLE]
    exact hmod _ (by omega)
  · rw [hm]; simp only [first_mount]
    rw [readLE_memset_in _ _ _ _ _ (by omega) (by omega)]

/-- Witness for first_mount_layout at the minimum region size 2048. -/
theorem first_mount_layout_witness :
    2048 ≤ 2048 ∧ (2048 : Nat) < 2 ^ 64 ∧
    (readLE (fresh_mount 2048 0 0) 0 4 = MAGIC_NUMBER ∧
     readLE (fresh_mount 2048 0 0) 24 8 = 2048 ∧
     readLE (fresh_mount 2048 0 0) 16 8 = 32 ∧
     fresh_mount 2048 0 0 32 = 47 ∧
     (∀ i, 1 ≤ i → i < 256 → fresh_mount 2048 0 0 (32 + i) = 0) ∧
     fresh_mount 2048 0 0 320 = 2 ∧
     readLE (fresh_mount 2048 0 0) 328 8 = 1 ∧
     readLE (fresh_mount 2048 0 0) 336 8 = 352 ∧
     readLE (fresh_mount 2048 0 0) 344 8 = 32 ∧
     readLE (fresh_mount 2048 0 0) 352 8 = 0 ∧
     readLE (fresh_mount 2048 0 0) 8 8 = 384 ∧
     readLE (fresh_mount 2048 0 0) 384 8 = 2048 - 392 ∧
     readLE (fresh_mount 2048 0 0) 392 8 = 0 ∧
     352 = 32 + 312 + 8 ∧
     384 = 352 + 32 ∧
     384 + 8 + (2048 - 392) = 2048) :=
  ⟨by norm_num, by norm_num, first_mount_layout 2048 0 0 (by norm_num) (by norm_num)⟩

/-! Lemmas about the allocator scan. -/

theorem foldl_scanStep_lt : ∀ (t : List FreeBlock) (bi bv ci : Nat), bi < ci →
    (t.foldl scanStep (bi, bv, ci)).1 < ci + t.length := by
  intro t
  induction t with
  | nil => intro bi bv ci h; simpa using h
  | cons b t ih =>
    intro bi bv ci h
    rw [List.foldl_cons]
    by_cases hb : b.rem > bv
    · rw [show scanStep (bi, bv, ci) b = (ci, b.rem, ci + 1) by simp [scanStep, hb]]
      have := ih ci b.rem (ci + 1) (by omega)
      simp only [List.length_cons]
      omega
    · rw [show scanStep (bi, bv, ci) b = (bi, bv, ci + 1) by simp [scanStep, hb]]
      have := ih bi bv (ci + 1) (by omega)
      simp only [List.length_cons]
      omega

theorem firstMaxIdx_lt (l : List FreeBlock) (h : l ≠ []) :
    firstMaxIdx l < l.length := by
  match l with
  | [] => exact absurd rfl h
  | x :: t =>
    show (t.foldl scanStep (0, x.rem, 1)).1 < (x :: t).length
    have := foldl_scanStep_lt t 0 x.rem 1 (by omega)
    simp only [List.length_cons]
    omega

/-- C2 counterexample: a request of 64 bytes against the free list
    [(100, 16), (200, 32)], in which no single block can satisfy the
    request, is partially fulfilled: get_memory_block returns the payload
    offset 208 of the unlinked largest block instead of NULL, removes that
    block from the free list, and leaves the 32-byte shortfall in the
    in-out size. -/
theorem get_memory_block_partial_cex :
    (∀ b ∈ [(⟨100, 16⟩ : FreeBlock), ⟨200, 32⟩], b.rem < 64) ∧
    get_memory_block [⟨100, 16⟩, ⟨200, 32⟩] 64 =
      ⟨some 208, [⟨100, 16⟩], 32, none⟩ := by
  decide

/-- C2 amended: when no single free block can satisfy the
    minimum-adjusted request, get_memory_block either returns NULL with
    the free list unchanged (exactly when the first largest block is the
    list head), or unlinks the first largest block and returns it as a
    partial fulfilment, leaving the nonzero residual request in the
    in-out size parameter; in either case no allocation header is
    written. -/
theorem get_memory_block_no_fit (l : List FreeBlock) (size0 : Nat) (hne : l ≠ [])
    (hnofit : ∀ b ∈ l, b.rem < (if size0 < 16 then 16 else size0)) :
    ((get_memory_block l size0).ret = none ∧
      (get_memory_block l size0).free = l ∧
      (get_memory_block l size0).size = (if size0 < 16 then 16 else size0) ∧
      (get_memory_block l size0).hdrSet = none) ∨
    (∃ b ∈ l, (get_memory_block l size0).ret = some (b.off + 8) ∧
      (get_memory_block l size0).free = l.eraseIdx (firstMaxIdx l) ∧
      (get_memory_block l size0).size =
        (if size0 < 16 then 16 else size0) - b.rem ∧
      (get_memory_block l size0).size ≠ 0 ∧
      (get_memory_block l size0).hdrSet = none) := by
  match l with
  | [] => exact absurd rfl hne
  | h :: t =>
    have hk : firstMaxIdx (h :: t) < (h :: t).length :=
      firstMaxIdx_lt _ (by simp)
    have hbm : (h :: t).getD (firstMaxIdx (h :: t)) h ∈ h :: t := by
      rw [List.getD_eq_getElem?_getD, List.getElem?_eq_getElem hk]
      exact List.getElem_mem _
    have hblt := hnofit _ hbm
    simp only [get_memory_block]
    rw [if_neg (by omega)]
    by_cases hk0 : firstMaxIdx (h :: t) = 0
    · rw [if_pos hk0]
      left
      exact ⟨rfl, rfl, rfl, rfl⟩
    · rw [if_neg hk0]
      right
      exact ⟨_, hbm, rfl, rfl, rfl, by simp only []; omega, rfl⟩

/-- Witness for get_memory_block_no_fit at the counterexample input. -/
theorem get_memory_block_no_fit_witness :
    (([(⟨100, 16⟩ : FreeBlock), ⟨200, 32⟩] : List FreeBlock) ≠ [] ∧
      (∀ b ∈ [(⟨100, 16⟩ : FreeBlock), ⟨200, 32⟩],
        b.rem < (if (64 : Nat) < 16 then 16 else 64))) ∧
    (((get_memory_block [⟨100, 16⟩, ⟨200, 32⟩] 64).ret = none ∧
      (get_memory_block [⟨100, 16⟩, ⟨200, 32⟩] 64).free = [⟨100, 16⟩, ⟨200, 32⟩] ∧
      (get_memory_block [⟨100, 16⟩, ⟨200, 32⟩] 64).size =
        (if (64 : Nat) < 16 then 16 else 64) ∧
      (get_memory_block [⟨100, 16⟩, ⟨200, 32⟩] 64).hdrSet = none) ∨
    (∃ b ∈ [(⟨100, 16⟩ : FreeBlock), ⟨200, 32⟩],
      (get_memory_block [⟨100, 16⟩, ⟨200, 32⟩] 64).ret = some (b.off + 8) ∧
      (get_memory_block [⟨100, 16⟩, ⟨200, 32⟩] 64).free =
        [(⟨100, 16⟩ : FreeBlock), ⟨200, 32⟩].eraseIdx
          (firstMaxIdx [⟨100, 16⟩, ⟨200, 32⟩]) ∧
      (get_memory_block [⟨100, 16⟩, ⟨200, 32⟩] 64).size =
        (if (64 : Nat) < 16 then 16 else 64) - b.rem ∧
      (get_memory_block [⟨100, 16⟩, ⟨200, 32⟩] 64).size ≠ 0 ∧
      (get_memory_block [⟨100, 16⟩, ⟨200, 32⟩] 64).hdrSet = none)) :=
  ⟨⟨by decide, by decide⟩,
    get_memory_block_no_fit [⟨100, 16⟩, ⟨200, 32⟩] 64 (by decide) (by decide)⟩

/-! Lemmas about coalescing and the free-list insertion walk. -/

theorem coalesce_nil : coalesce [] = [] := by
  rw [coalesce]

theorem coalesce_single (a : FreeBlock) : coalesce [a] = [a] := by
  rw [coalesce]

theorem coalesce_cons2 (a b : FreeBlock) (t : List FreeBlock) :
    coalesce (a :: b :: t) =
      if a.off + 8 + a.rem = b.off then
        coalesce (⟨a.off, a.rem + 8 + b.rem⟩ :: t)
      else a :: coalesce (b :: t) := by
  rw [coalesce]

theorem sep_replace_head (x y : FreeBlock) (t : List FreeBlock)
    (hend : x.off + 8 + x.rem = y.off + 8 + y.rem) (h : Sep (y :: t)) :
    Sep (x :: t) := by
  cases t with
  | nil => exact List.chain'_singleton _
  | cons m t2 =>
    unfold Sep at h ⊢
    rw [List.chain'_cons] at h ⊢
    exact ⟨by omega, h.2⟩

theorem coalesce_of_sep (l : List FreeBlock) (h : Sep l) : coalesce l = l := by
  induction l with
  | nil => exact coalesce_nil
  | cons a l ih =>
    cases l with
    | nil => exact coalesce_single a
    | cons b t =>
      unfold Sep at h
      rw [List.chain'_cons] at h
      rw [coalesce_cons2, if_neg (by omega), ih h.2]

theorem insertLoop_eq (newOff newRem : Nat) (t : List FreeBlock) :
    ∀ c : FreeBlock, Sep (c :: t) → Fits newOff newRem (c :: t) →
      c.off + 8 + c.rem ≤ newOff →
      (insertLoop newOff newRem c t =
        coalesce (c :: sortedInsert ⟨newOff, newRem⟩ t) ∧
      Sep (insertLoop newOff newRem c t) ∧
      ∃ r tl, insertLoop newOff newRem c t = ⟨c.off, r⟩ :: tl) := by
  induction t with
  | nil =>
    intro c hsep hfit hc
    simp only [insertLoop, sortedInsert]
    by_cases hadj : c.off + 8 + c.rem = newOff
    · rw [if_pos hadj]
      refine ⟨?_, List.chain'_singleton _, ⟨_, _, rfl⟩⟩
      rw [coalesce_cons2, if_pos hadj, coalesce_single]
    · rw [if_neg hadj]
      refine ⟨?_, ?_, ⟨_, _, rfl⟩⟩
      · rw [coalesce_cons2, if_neg hadj, coalesce_single]
      · unfold Sep
        rw [List.chain'_cons]
        exact ⟨by dsimp only; omega, List.chain'_singleton _⟩
  | cons n t2 ih =>
    intro c hsep hfit hc
    have hsep2 : Sep (n :: t2) := (List.chain'_cons.mp hsep).2
    have hcn : c.off + 8 + c.rem < n.off := (List.chain'_cons.mp hsep).1
    have hfit2 : Fits newOff newRem (n :: t2) :=
      fun b hb => hfit b (List.mem_cons_of_mem _ hb)
    by_cases hlt : n.off < newOff
    · have hnend : n.off + 8 + n.rem ≤ newOff := by
        rcases hfit n (by simp) with hx | hx
        · exact hx
        · omega
      obtain ⟨heq, hsep1, r, tl, hhd⟩ := ih n hsep2 hfit2 hnend
      simp only [insertLoop]
      rw [if_pos hlt]
      have hsi : sortedInsert ⟨newOff, newRem⟩ (n :: t2) =
          n :: sortedInsert ⟨newOff, newRem⟩ t2 := by
        simp only [sortedInsert]
        rw [if_neg (by omega)]
      refine ⟨?_, ?_, ⟨c.rem, _, rfl⟩⟩
      · rw [hsi, coalesce_cons2, if_neg (by omega), ← heq]
      · rw [hhd]
        rw [hhd] at hsep1
        unfold Sep at hsep1 ⊢
        rw [List.chain'_cons]
        exact ⟨hcn, hsep1⟩
    · have hnle : newOff + 8 + newRem ≤ n.off := by
        rcases hfit n (by simp) with hx | hx
        · omega
        · exact hx
      have hnoff : newOff < n.off := by omega
      simp only [insertLoop]
      rw [if_neg hlt]
      have hsi : sortedInsert ⟨newOff, newRem⟩ (n :: t2) =
          ⟨newOff, newRem⟩ :: n :: t2 := by
        simp only [sortedInsert]
        rw [if_pos hnoff]
      rw [hsi]
      by_cases hadj2 : newOff + 8 + newRem = n.off
      · rw [if_pos hadj2]
        by_cases hadj1 : c.off + 8 + c.rem = newOff
        · rw [if_pos hadj1]
          refine ⟨?_, ?_, ⟨_, _, rfl⟩⟩
          · rw [coalesce_cons2]
            show _ = if c.off + 8 + c.rem = newOff then _ else _
            rw [if_pos hadj1, coalesce_cons2, if_pos (by dsimp only; omega),
              coalesce_of_sep _ (sep_replace_head _ n _ (by dsimp only; omega) hsep2),
              show c.rem + 8 + newRem + 8 + n.rem = c.rem + 8 + (newRem + 8 + n.rem)
                from by omega]
          · exact sep_replace_head _ n _ (by dsimp only; omega) hsep2
        · rw [if_neg hadj1]
          refine ⟨?_, ?_, ⟨_, _, rfl⟩⟩
          · rw [coalesce_cons2]
            show _ = if c.off + 8 + c.rem = newOff then _ else _
            rw [if_neg hadj1, coalesce_cons2, if_pos hadj2,
              coalesce_of_sep _ (sep_replace_head _ n _ (by dsimp only; omega) hsep2)]
          · unfold Sep
            rw [List.chain'_cons]
            exact ⟨by dsimp only; omega,
              sep_replace_head _ n _ (by dsimp only; omega) hsep2⟩
      · rw [if_neg hadj2]
        by_cases hadj1 : c.off + 8 + c.rem = newOff
        · rw [if_pos hadj1]
          refine ⟨?_, ?_, ⟨_, _, rfl⟩⟩
          · rw [coalesce_cons2]
            show _ = if c.off + 8 + c.rem = newOff then _ else _
            rw [if_pos hadj1, coalesce_cons2, if_neg (by dsimp only; omega),
              coalesce_of_sep _ hsep2]
          · unfold Sep
            rw [List.chain'_cons]
            exact ⟨by dsimp only; omega, hsep2⟩
        · rw [if_neg hadj1]
          refine ⟨?_, ?_, ⟨_, _, rfl⟩⟩
          · rw [coalesce_cons2]
            show _ = if c.off + 8 + c.rem = newOff then _ else _
            rw [if_neg hadj1, coalesce_cons2, if_neg hadj2,
              coalesce_of_sep _ hsep2]
          · unfold Sep
            rw [List.chain'_cons, List.chain'_cons]
            exact ⟨by dsimp only; omega, by dsimp only; omega, hsep2⟩

/-- C5: on an address-ordered free list with disjoint, non-adjacent blocks,
    freeing a disjoint block makes add_to_free_memory compute exactly the
    spec-modelled insert-then-coalesce result (insertion at the correct
    ascending-offset position, merging with predecessor and successor
    exactly when physically adjacent), and the resulting list is again
    address-ordered with no two adjacent blocks left unmerged. -/
theorem add_to_free_memory_sorted_coalesced (newOff newRem : Nat)
    (l : List FreeBlock) (hne : l ≠ []) (hsep : Sep l)
    (hfit : Fits newOff newRem l) :
    add_to_free_memory newOff newRem l =
      coalesce (sortedInsert ⟨newOff, newRem⟩ l) ∧
    Sep (add_to_free_memory newOff newRem l) := by
  match l with
  | [] => exact absurd rfl hne
  | h :: t =>
    by_cases hgt : h.off > newOff
    · have hnle : newOff + 8 + newRem ≤ h.off := by
        rcases hfit h (by simp) with hx | hx
        · omega
        · exact hx
      simp only [add_to_free_memory]
      rw [if_pos hgt]
      have hsi : sortedInsert ⟨newOff, newRem⟩ (h :: t) =
          ⟨newOff, newRem⟩ :: h :: t := by
        simp only [sortedInsert]
        rw [if_pos hgt]
      rw [hsi]
      by_cases hadj : newOff + 8 + newRem = h.off
      · rw [if_pos hadj]
        constructor
        · rw [coalesce_cons2, if_pos hadj,
            coalesce_of_sep _ (sep_replace_head _ h _ (by dsimp only; omega) hsep)]
        · exact sep_replace_head _ h _ (by dsimp only; omega) hsep
      · rw [if_neg hadj]
        constructor
        · rw [coalesce_cons2, if_neg hadj, coalesce_of_sep _ hsep]
        · unfold Sep
          rw [List.chain'_cons]
          exact ⟨by dsimp only; omega, hsep⟩
    · have hc : h.off + 8 + h.rem ≤ newOff := by
        rcases hfit h (by simp) with hx | hx
        · exact hx
        · omega
      simp only [add_to_free_memory]
      rw [if_neg hgt]
      obtain ⟨heq, hsep1, _, _, _⟩ := insertLoop_eq newOff newRem t h hsep hfit hc
      have hsi : sortedInsert ⟨newOff, newRem⟩ (h :: t) =
          h :: sortedInsert ⟨newOff, newRem⟩ t := by
        simp only [sortedInsert]
        rw [if_neg (by omega)]
      rw [hsi]
      exact ⟨heq, hsep1⟩

/-- Witness for add_to_free_memory_sorted_coalesced: freeing the block
    (150, 8) into the list [(100, 8), (200, 8)]. -/
theorem add_to_free_memory_sorted_coalesced_witness :
    (([(⟨100, 8⟩ : FreeBlock), ⟨200, 8⟩] : List FreeBlock) ≠ [] ∧
      Sep [(⟨100, 8⟩ : FreeBlock), ⟨200, 8⟩] ∧
      Fits 150 8 [(⟨100, 8⟩ : FreeBlock), ⟨200, 8⟩]) ∧
    (add_to_free_memory 150 8 [⟨100, 8⟩, ⟨200, 8⟩] =
        coalesce (sortedInsert ⟨150, 8⟩ [⟨100, 8⟩, ⟨200, 8⟩]) ∧
      Sep (add_to_free_memory 150 8 [⟨100, 8⟩, ⟨200, 8⟩])) :=
  ⟨⟨by decide, by unfold Sep; simp [List.chain'_cons], by unfold Fits; decide⟩,
    add_to_free_memory_sorted_coalesced 150 8 _ (by decide)
      (by unfold Sep; simp [List.chain'_cons]) (by unfold Fits; decide)⟩

/-! Theorems about the operation surface and helpers of the record-level
    model. -/

/-- C6 counterexample: the pointer at base + 200 on a region of length 100
    translates to offset 200, and offset 200 translates back to a valid
    pointer, although both lie beyond the region; the claimed
    length-checked behaviour is therefore false. -/
theorem translation_no_length_check_cex :
    pointer_to_offset 0 200 = 200 ∧
    pointer_to_offset_spec 0 100 200 = 0 ∧
    offset_to_pointer 0 200 = some 200 ∧
    offset_to_pointer_spec 0 100 200 = none ∧
    ¬ translationClaim := by
  refine ⟨by decide, by decide, by decide, by decide, ?_⟩
  intro h
  exact absurd (h.1 0 100 200) (by decide)

/-- C6 amended: the translation functions check only the lower bound.
    pointer_to_offset returns p - base whenever base is at or below p and 0
    whenever p is below base, regardless of the region length; and
    offset_to_pointer returns base + o whenever the sum does not wrap the
    64-bit address space, regardless of the region length. -/
theorem translation_lower_bound_only (base p q o : Nat) (hp : base ≤ p)
    (hq : q < base) (ho : base + o < ADDR_SPACE) :
    pointer_to_offset base p = p - base ∧
    pointer_to_offset base q = 0 ∧
    offset_to_pointer base o = some (base + o) := by
  refine ⟨?_, ?_, ?_⟩
  · unfold pointer_to_offset
    rw [if_neg (by omega)]
  · unfold pointer_to_offset
    rw [if_pos (by omega)]
  · unfold offset_to_pointer
    simp only [Nat.mod_eq_of_lt ho]
    rw [if_neg (by omega)]

/-- Witness for translation_lower_bound_only. -/
theorem translation_lower_bound_only_witness :
    ((10 : Nat) ≤ 12 ∧ (3 : Nat) < 10 ∧ (10 : Nat) + 5 < ADDR_SPACE) ∧
    (pointer_to_offset 10 12 = 12 - 10 ∧
      pointer_to_offset 10 3 = 0 ∧
      offset_to_pointer 10 5 = some (10 + 5)) :=
  ⟨⟨by decide, by decide, by decide⟩,
    translation_lower_bound_only 10 12 3 5 (by decide) (by decide) (by decide)⟩

/-- C7 evaluation at the failing input: getattr on the directory "/" sets
    st_mode to bare __S_IFDIR = 16384, not S_IFDIR BOR 0755 = 16877, and
    leaves the size, atime and mtime slots at the caller values 77, 88 and
    99 instead of filling them from the inode (whose times are 3 and 4);
    on the file "/f" it sets bare __S_IFREG = 32768, not 33261. -/
theorem getattr_missing_mode_bits_cex :
    getattr sampleFS 33 44 "/".toList sampleStat =
      (0, none, ⟨33, 44, 16384, 2, 77, 88, 99⟩) ∧
    (16384 : Nat) ≠ 16384 + 493 ∧
    (sampleFS.nodes 32).atime = 3 ∧ (sampleFS.nodes 32).mtime = 4 ∧
    getattr sampleFS 33 44 "/f".toList sampleStat =
      (0, none, ⟨33, 44, 32768, 1, 6, 5, 7⟩) ∧
    (32768 : Nat) ≠ 32768 + 493 := by
  decide

/-- C1 evaluation at the failing input: the type guard of truncate is
    inverted, so truncating the regular file "/f" to length 0 fails with
    EISDIR, while truncating the directory "/" to length 0 passes the
    guard and succeeds (mutating the directory payload through the file
    view of the union). -/
theorem truncate_inverted_type_guard_cex :
    (sampleFS.nodes 1000).type = 1 ∧
    (truncate sampleFS "/f".toList 0 99 9).1 = -1 ∧
    (truncate sampleFS "/f".toList 0 99 9).2.1 = some EISDIR ∧
    (sampleFS.nodes 32).type = 2 ∧
    (truncate sampleFS "/".toList 0 99 9).1 = 0 ∧
    (truncate sampleFS "/".toList 0 99 9).2.1 = none := by
  decide

/-- C8 evaluation at the failing input: growing the empty file at offset
    1000 to 100 bytes fails with ENOSPC (the fresh record has capacity 0),
    yet the failed call has linked the new record at offset 508 into the
    file and consumed the allocation from the free list: the state is
    mutated on a failing grow. -/
theorem add_data_failure_mutates_state :
    (growFS.nodes 1000).u1 = 0 ∧
    growFS.free = [⟨500, 100⟩] ∧
    (add_data growFS 1000 100 9).1 = -1 ∧
    (add_data growFS 1000 100 9).2.1 = some ENOSPC ∧
    ((add_data growFS 1000 100 9).2.2.nodes 1000).u1 = 508 ∧
    (add_data growFS 1000 100 9).2.2.free = [⟨540, 60⟩] := by
  decide

/-- C9 evaluation at the failing input: truncate rejects the regular file
    "/t" (size 10, one chunk with allocated = 10) with EISDIR because of
    the inverted guard, so no successful truncate can reach a file; and
    the shrink worker remove_data, cutting that chunk chain to 5 bytes,
    leaves the chunk allocated count at 10, so the intended shrink would
    end with size 5 but a chunk sum of 10. -/
theorem truncate_size_chain_sum_cex :
    (shrinkFS.nodes 600).u0 = 10 ∧
    ((shrinkFS.fblocks 700).allocated = 10 ∧ (shrinkFS.fblocks 700).next = 0) ∧
    (truncate shrinkFS "/t".toList 5 99 9).1 = -1 ∧
    (truncate shrinkFS "/t".toList 5 99 9).2.1 = some EISDIR ∧
    ((remove_data shrinkFS 700 5 9).fblocks 700).allocated = 10 ∧
    (10 : Nat) ≠ 5 := by
  decide

/-- C10: on any mounted state whose root is not at offset 0, has a
    non-file type tag and stores 0 in the parent slot of its children
    table, resolve_path follows ".." through the 0 sentinel without a
    special case: "/.." resolves to offset 0, the superblock, treated as
    an inode, rather than to the root inode or to a lookup failure; and
    getattr on "/.." consequently succeeds (it cannot fail with ENOENT),
    reading superblock bytes as inode fields. -/
theorem resolve_dotdot_superblock (m : Mem) (uid gid : Nat) (st : StatBuf)
    (hroot : m.rootOff ≠ 0)
    (htype : (m.nodes m.rootOff).type ≠ 1)
    (hslot : m.slots (m.nodes m.rootOff).u1 0 = 0) :
    resolve_path m "/..".toList 0 = some 0 ∧
    (0 : Nat) ≠ m.rootOff ∧
    (getattr m uid gid "/..".toList st).1 = 0 ∧
    (getattr m uid gid "/..".toList st).2.1 = none := by
  have hres : resolve_path m "/..".toList 0 = some 0 := by
    show resolveLoop m m.rootOff [['.', '.']] = some 0
    simp only [resolveLoop, get_node]
    rw [if_neg htype, if_neg (by decide : ¬ (['.', '.'] = ['.'])),
      if_pos trivial, hslot]
  have hg : (getattr m uid gid "/..".toList st).1 = 0 ∧
      (getattr m uid gid "/..".toList st).2.1 = none := by
    simp only [getattr, hres]
    by_cases h0 : (m.nodes 0).type = 1
    · rw [if_pos h0]
      exact ⟨rfl, rfl⟩
    · rw [if_neg h0]
      exact ⟨rfl, rfl⟩
  exact ⟨hres, fun h => hroot h.symm, hg.1, hg.2⟩

/-- Witness for resolve_dotdot_superblock at the sample state. -/
theorem resolve_dotdot_superblock_witness :
    (sampleFS.rootOff ≠ 0 ∧
      (sampleFS.nodes sampleFS.rootOff).type ≠ 1 ∧
      sampleFS.slots (sampleFS.nodes sampleFS.rootOff).u1 0 = 0) ∧
    (resolve_path sampleFS "/..".toList 0 = some 0 ∧
      (0 : Nat) ≠ sampleFS.rootOff ∧
      (getattr sampleFS 0 0 "/..".toList sampleStat).1 = 0 ∧
      (getattr sampleFS 0 0 "/..".toList sampleStat).2.1 = none) :=
  ⟨⟨by decide, by decide, by decide⟩,
    resolve_dotdot_superblock sampleFS 0 0 sampleStat (by decide) (by decide)
      (by decide)⟩

end Myfs
